import Mathlib

/-!
Shallow embedding of the rustronomy-fits binary codec core
(`src/extensions/table/ascii_tbl_parser.rs`, `src/extensions/image/typed_image.rs`)
together with the collaborator pieces those files use.

Modelling conventions:
* machine integers are `Nat`/`Int`; bytes are `Nat` values (0..255);
* a Rust `&str`/`String` holding row data is its UTF-8 byte list (`List Nat`);
* fallible Rust code returns `Except`; a Rust panic (index out of bounds,
  `todo!()`, zero chunk size) is modelled as the `none` case of an outer
  `Option` layer;
* `f32`/`f64` image payloads are carried as opaque bit patterns (`F32`/`F64`);
  the code under study never computes with them, it only moves them.
-/

namespace RustronomyFits

/-- Decidable equality for `Except`, so that concrete runs of the embedded
code can be checked by `decide`. -/
instance {ε α : Type} [DecidableEq ε] [DecidableEq α] : DecidableEq (Except ε α) :=
  fun x y =>
    match x, y with
    | .ok a, .ok b =>
      if h : a = b then isTrue (by rw [h]) else isFalse (by intro he; cases he; exact h rfl)
    | .error a, .error b =>
      if h : a = b then isTrue (by rw [h]) else isFalse (by intro he; cases he; exact h rfl)
    | .ok _, .error _ => isFalse (fun he => Except.noConfusion he)
    | .error _, .ok _ => isFalse (fun he => Except.noConfusion he)

/-- Block size constant from the crate root (`BLOCK_SIZE = 2880` bytes). -/
def BLOCK_SIZE : Nat := 2880

/-- Parse an unsigned decimal integer from a list of characters;
`none` when the list is empty or holds a non-digit (mirrors `usize::from_str`
failing, i64 range overflow is not modelled). -/
def parseNatDigits (cs : List Char) : Option Nat :=
  if cs = [] then none
  else
    cs.foldl
      (fun acc c =>
        match acc with
        | none => none
        | some n => if c.isDigit then some (n * 10 + (c.toNat - 48)) else none)
      (some 0)

/-- `TableEntryFormat` from `raw/table_entry_format.rs` (declared in the spec
data model): a parsed ASCII-table field format code. -/
inductive TableEntryFormat where
  | Char (width : Nat)
  | Int (width : Nat)
  | Float (width : Nat) (precision : Nat)
  | Invalid (original : String)
deriving DecidableEq

/-- `std::num::ParseIntError`, carried only as an opaque token (the modelled
parser below never produces it, matching the spec). -/
inductive ParseIntError where
  | mk
deriving DecidableEq

/-- Modelled from the spec: `TableEntryFormat::from_fortran_format_code`
(file `raw/table_entry_format.rs` is not among the sources; only its caller in
`decode_tbl` is). Grammar per spec 4.4: a leading letter selects the kind
(`A` Char, `I` Int, `F` Float), then an unsigned width, and for `F` an optional
dot plus unsigned precision; any non-conforming code, including one with an
unparsable width or precision, becomes `Invalid(original-text)`. The
`Except ParseIntError` result type mirrors the collect type at the call site in
`decode_tbl`; per the spec the parser is total, so the error is never produced. -/
def from_fortran_format_code (code : String) : Except ParseIntError TableEntryFormat :=
  match code.data with
  | [] => .ok (.Invalid code)
  | c :: rest =>
    if c = 'A' then
      match parseNatDigits rest with
      | some w => .ok (.Char w)
      | none => .ok (.Invalid code)
    else if c = 'I' then
      match parseNatDigits rest with
      | some w => .ok (.Int w)
      | none => .ok (.Invalid code)
    else if c = 'F' then
      match rest.dropWhile (fun x => x ≠ '.') with
      | [] =>
        match parseNatDigits rest with
        | some w => .ok (.Float w 0)
        | none => .ok (.Invalid code)
      | _ :: ps =>
        match parseNatDigits (rest.takeWhile (fun x => x ≠ '.')), parseNatDigits ps with
        | some w, some p => .ok (.Float w p)
        | _, _ => .ok (.Invalid code)
    else .ok (.Invalid code)

/-- Modelled from the spec: `TableEntryFormat::get_field_width` — the character
count the field occupies in a fixed-width row (`Invalid` never reaches a use of
its width in `decode_tbl`, since `setup_table` aborts first; it is given 0). -/
def get_field_width : TableEntryFormat → Nat
  | .Char w => w
  | .Int w => w
  | .Float w _ => w
  | .Invalid _ => 0

/-- Modelled from the spec: the setup error `InvalidFFCode` (error module not
among the sources) — carries the offending original format-code text. -/
structure InvalidFFCode where
  code : String
deriving DecidableEq

/-- `std::str::Utf8Error`: position of the first invalid byte and the length of
the invalid sequence (`none` for an unexpected end of input). -/
structure Utf8Error where
  valid_up_to : Nat
  error_len : Option Nat
deriving DecidableEq

/-- UTF-8 continuation byte test (0x80..=0xBF). -/
def isCont (b : Nat) : Bool := 128 ≤ b && b ≤ 191

/-- Core UTF-8 validation as performed by `str::from_utf8`: returns the first
error, or `none` when the whole byte list is valid UTF-8. -/
def utf8Validate : Nat → List Nat → Option Utf8Error
  | _, [] => none
  | pos, b :: rest =>
    if b ≤ 127 then utf8Validate (pos + 1) rest
    else if 194 ≤ b ∧ b ≤ 223 then
      match rest with
      | [] => some ⟨pos, none⟩
      | b2 :: rest2 =>
        if isCont b2 then utf8Validate (pos + 2) rest2 else some ⟨pos, some 1⟩
    else if (b = 224 ∨ (225 ≤ b ∧ b ≤ 236)) ∨ (b = 237 ∨ (238 ≤ b ∧ b ≤ 239)) then
      -- three byte forms; the second byte range depends on the first byte
      let lo2 : Nat := if b = 224 then 160 else 128
      let hi2 : Nat := if b = 237 then 159 else 191
      match rest with
      | [] => some ⟨pos, none⟩
      | b2 :: rest2 =>
        if lo2 ≤ b2 ∧ b2 ≤ hi2 then
          match rest2 with
          | [] => some ⟨pos, none⟩
          | b3 :: rest3 =>
            if isCont b3 then utf8Validate (pos + 3) rest3 else some ⟨pos, some 2⟩
        else some ⟨pos, some 1⟩
    else if 240 ≤ b ∧ b ≤ 244 then
      -- four byte forms
      let lo2 : Nat := if b = 240 then 144 else 128
      let hi2 : Nat := if b = 244 then 143 else 191
      match rest with
      | [] => some ⟨pos, none⟩
      | b2 :: rest2 =>
        if lo2 ≤ b2 ∧ b2 ≤ hi2 then
          match rest2 with
          | [] => some ⟨pos, none⟩
          | b3 :: rest3 =>
            if isCont b3 then
              match rest3 with
              | [] => some ⟨pos, none⟩
              | b4 :: rest4 =>
                if isCont b4 then utf8Validate (pos + 4) rest4 else some ⟨pos, some 3⟩
            else some ⟨pos, some 2⟩
        else some ⟨pos, some 1⟩
    else some ⟨pos, some 1⟩

/-- `str::from_utf8`: on success the resulting `&str` is exactly the input
bytes. -/
def from_utf8 (bytes : List Nat) : Except Utf8Error (List Nat) :=
  match utf8Validate 0 bytes with
  | none => .ok bytes
  | some e => .error e

/-- `TableEntry` (spec data model): a typed cell value. Numeric payloads:
the i64 is an `Int` (range unmodelled); the f64 produced by a fixed-point
field is represented exactly as a scaled decimal mantissa/scale pair, since the
code under study never computes with the float, only stores and renders it. -/
inductive TableEntry where
  | Char (s : List Nat)
  | Int (n : Int)
  | Float (mantissa : Int) (scale : Nat)
deriving DecidableEq

/-- The element kind of a typed column. -/
inductive ColKind where
  | char
  | int
  | float
deriving DecidableEq

/-- Kind of a table entry, used by `add_row` to match entries to columns. -/
def entryKind : TableEntry → ColKind
  | .Char _ => .char
  | .Int _ => .int
  | .Float _ _ => .float

/-- Modelled from the spec: the structured parse error produced when a field's
text cannot be converted to the type implied by its format; it carries the
offending text (`tbl_fmt_err::ParseError` is not among the sources). -/
structure ParseError where
  text : List Nat
deriving DecidableEq

/-- Drop leading and trailing ASCII spaces from a byte string. -/
def trimSpaces (s : List Nat) : List Nat :=
  ((s.dropWhile (fun b => b = 32)).reverse.dropWhile (fun b => b = 32)).reverse

/-- ASCII digit test on a byte. -/
def isDigitByte (b : Nat) : Bool := 48 ≤ b && b ≤ 57

/-- Parse an unsigned decimal integer from a byte string. -/
def parseNatBytes (s : List Nat) : Option Nat :=
  if s = [] then none
  else
    s.foldl
      (fun acc b =>
        match acc with
        | none => none
        | some n => if isDigitByte b then some (n * 10 + (b - 48)) else none)
      (some 0)

/-- Parse a signed decimal integer from a byte string (`i64::from_str`;
the i64 range is not modelled). -/
def parseIntBytes (s : List Nat) : Option Int :=
  match s with
  | 45 :: rest => (parseNatBytes rest).map (fun n => -(n : Int))
  | 43 :: rest => (parseNatBytes rest).map (fun n => (n : Int))
  | _ => (parseNatBytes s).map (fun n => (n : Int))

/-- Parse a fixed-point decimal `[sign] digits [. digits]` into a scaled
mantissa/scale pair (exponent forms are not modelled; ASCII table fixed-point
fields do not use them). -/
def parseFloatBytes (s : List Nat) : Option (Int × Nat) :=
  let core := fun (t : List Nat) (sign : Int) =>
    let ip := t.takeWhile isDigitByte
    let rest := t.dropWhile isDigitByte
    match rest with
    | [] => if ip = [] then none else (parseNatBytes ip).map (fun n => (sign * n, 0))
    | 46 :: fp =>
      if fp.all isDigitByte ∧ ¬(ip = [] ∧ fp = []) then
        (parseNatBytes ((ip ++ fp).filter isDigitByte)).map (fun n => (sign * n, fp.length))
      else none
    | _ => none
  match s with
  | 45 :: rest => core rest (-1)
  | 43 :: rest => core rest 1
  | _ => core s 1

/-- Modelled from the spec: `TableEntry::from_parts` (not among the sources) —
combine a field's decoded text with its declared format to produce a typed
entry; a numeric parse failure is a structured `ParseError`. An `Invalid`
format is unreachable here because `setup_table` aborts the decode first. -/
def from_parts (st : List Nat) (fmt : TableEntryFormat) : Except ParseError TableEntry :=
  match fmt with
  | .Char _ => .ok (.Char st)
  | .Int _ =>
    match parseIntBytes (trimSpaces st) with
    | some n => .ok (.Int n)
    | none => .error ⟨st⟩
  | .Float _ _ =>
    match parseFloatBytes (trimSpaces st) with
    | some mp => .ok (.Float mp.1 mp.2)
    | none => .error ⟨st⟩
  | .Invalid _ => .error ⟨st⟩

/-- Modelled from the spec: one typed column behind the uniform `AsciiCol`
capability (render cell as text, report length, report label); the element
type lives in `kind`, the cells in `entries` (`table/column.rs` is not among
the sources). -/
structure AsciiColumn where
  label : Option String
  kind : ColKind
  entries : List TableEntry
deriving DecidableEq

/-- Modelled from the spec: `AsciiTable` — owns the columns and records a
target row count fixed at construction (`size`). -/
structure AsciiTable where
  cols : List AsciiColumn
  size : Nat
deriving DecidableEq

/-- Modelled from the spec: `AsciiTable::new_sized` — an empty table over the
given columns whose recorded target row count is `size`. -/
def AsciiTable.new_sized (cols : List AsciiColumn) (size : Nat) : AsciiTable :=
  ⟨cols, size⟩

/-- Error type of `AsciiTable::add_row`. -/
inductive AddRowError where
  | arityMismatch
  | kindMismatch
deriving DecidableEq

/-- Row/column compatibility: same arity and each entry of the kind of its
column. -/
def typesMatch : List AsciiColumn → List TableEntry → Bool
  | [], [] => true
  | c :: cs, e :: es => entryKind e = c.kind && typesMatch cs es
  | _, _ => false

/-- Modelled from the spec: `AsciiTable::add_row` — append one decoded row,
entry `i` to column `i`; fails when the row does not fit the columns. -/
def AsciiTable.add_row (tbl : AsciiTable) (row : List TableEntry) :
    Except AddRowError AsciiTable :=
  if typesMatch tbl.cols row then
    .ok ⟨List.zipWith (fun c e => ⟨c.label, c.kind, c.entries ++ [e]⟩) tbl.cols row, tbl.size⟩
  else
    .error (if row.length = tbl.cols.length then .kindMismatch else .arityMismatch)

/-- Length of the longest column (`AsciiTable::max_col_len`, modelled from the
spec). -/
def AsciiTable.max_col_len (tbl : AsciiTable) : Nat :=
  tbl.cols.foldl (fun m c => max m c.entries.length) 0

/-- Render one entry as text (the per-column render capability, modelled from
the spec; used by `destroy`). -/
def renderEntry : TableEntry → List Nat
  | .Char s => s
  | .Int n =>
    (if n < 0 then [45] else []) ++ (Nat.toDigits 10 n.natAbs).map Char.toNat
  | .Float m scale =>
    let ds := (Nat.toDigits 10 m.natAbs).map Char.toNat
    let ds := if ds.length ≤ scale then List.replicate (scale + 1 - ds.length) 48 ++ ds else ds
    (if m < 0 then [45] else []) ++
      (if scale = 0 then ds else ds.take (ds.length - scale) ++ 46 :: ds.drop (ds.length - scale))

/-- Modelled from the spec: `AsciiTable::destroy` — consume the table, yielding
each column's entries rendered as text, in column order. -/
def AsciiTable.destroy (tbl : AsciiTable) : List (List (List Nat)) :=
  tbl.cols.map (fun c => c.entries.map renderEntry)

/-- Modelled from the spec: `AsciiTable::get_tbl_fmt` — the per-column declared
formats, in column order (only computed, never consumed, by `encode_tbl`). -/
def AsciiTable.get_tbl_fmt (tbl : AsciiTable) : List ColKind :=
  tbl.cols.map (fun c => c.kind)

/-- Modelled from the spec: `RawFitsReader` — the not-yet-consumed bytes of
the underlying stream (`raw/raw_io.rs` is not among the sources). -/
structure RawFitsReader where
  bytes : List Nat
deriving DecidableEq

/-- Modelled from the spec: `RawFitsWriter` — the bytes written so far. -/
structure RawFitsWriter where
  written : List Nat
deriving DecidableEq

/-- The I/O error of the block layer. -/
inductive IOError where
  | notBlockSized
  | shortRead
deriving DecidableEq

/-- Modelled from the spec (4.1): `read_blocks` fills a buffer of `n` bytes;
it fails when `n` is not a whole-block multiple or when fewer than `n` bytes
are available, and otherwise advances the stream cursor past the `n` bytes. -/
def read_blocks (reader : RawFitsReader) (n : Nat) :
    Except IOError (List Nat × RawFitsReader) :=
  if n % BLOCK_SIZE ≠ 0 then .error .notBlockSized
  else if reader.bytes.length < n then .error .shortRead
  else .ok (reader.bytes.take n, ⟨reader.bytes.drop n⟩)

/-- Rust `slice[a..b]` on a byte slice, bounds already checked by the caller. -/
def listSlice (l : List Nat) (a b : Nat) : List Nat :=
  (l.take b).drop a

/-- `chunks_exact(k)`: the successive length-`k` chunks of a list, the
remainder dropped. The Rust method panics on `k = 0`; `decode_tbl` guards
that case before calling this. -/
def chunksExact (k : Nat) (l : List Nat) : List (List Nat) :=
  if _h : 0 < k ∧ k ≤ l.length then
    l.take k :: chunksExact k (l.drop k)
  else []
termination_by l.length
decreasing_by simp only [List.length_drop]; omega

/-- `Vec::resize(n, d)`: truncate or pad with `d` to length exactly `n`. -/
def listResize {α : Type} (l : List α) (n : Nat) (d : α) : List α :=
  if n ≤ l.length then l.take n else l ++ List.replicate (n - l.length) d

/-- `collect::<Result<Vec, E>>()` over an already-materialised list of per-item
results: the first error wins, otherwise all payloads in order. This is the
sequential unpacking step `decode_tbl` runs after each parallel stage. -/
def collectExcept {ε α : Type} : List (Except ε α) → Except ε (List α)
  | [] => .ok []
  | .error e :: _ => .error e
  | .ok a :: rest =>
    match collectExcept rest with
    | .error e => .error e
    | .ok xs => .ok (a :: xs)

/-- Collect a list of possibly-panicking computations: a panic in any element
panics the whole parallel stage (rayon propagates worker panics). -/
def collectPanic {α : Type} : List (Option α) → Option (List α)
  | [] => some []
  | none :: _ => none
  | some a :: rest => (collectPanic rest).map (fun xs => a :: xs)

/-- `AsciiTblParser::split_row`, iterating over the field start offsets:
`result.push(str::from_utf8(&raw[field_start[i]..(field_start[i] + field_len[i])])?)`.
The outer `Option` is `none` when an index or slice is out of bounds (a Rust
panic). -/
def splitRowGo (raw : List Nat) :
    List Nat → List Nat → Option (Except Utf8Error (List (List Nat)))
  | [], _ => some (.ok [])
  | s :: fs, fl =>
    match fl with
    | [] => none
    | len :: fl2 =>
      if s + len ≤ raw.length then
        match from_utf8 (listSlice raw s (s + len)) with
        | .error e => some (.error e)
        | .ok str =>
          match splitRowGo raw fs fl2 with
          | none => none
          | some (.error e) => some (.error e)
          | some (.ok rest) => some (.ok (str :: rest))
      else none

/-- `AsciiTblParser::split_row` (source lines 180..190). -/
def split_row (raw : List Nat) (field_start field_len : List Nat) :
    Option (Except Utf8Error (List (List Nat))) :=
  splitRowGo raw field_start field_len

/-- Label for column `i`: `None => None, Some(vec) => Some(vec[i].clone())`;
the indexing panics (outer `none`) when `i` is out of bounds. -/
def getLabel (labels : Option (List String)) (i : Nat) : Option (Option String) :=
  match labels with
  | none => some none
  | some v => (v.get? i).map some

/-- The column-building loop of `AsciiTblParser::setup_table`: one typed
column per parsed format, an `Invalid` format aborting with `InvalidFFCode`. -/
def setupCols :
    List TableEntryFormat → Option (List String) → Nat →
      Option (Except InvalidFFCode (List AsciiColumn))
  | [], _, _ => some (.ok [])
  | f :: rest, labels, i =>
    match f with
    | .Char _ =>
      match getLabel labels i with
      | none => none
      | some lab =>
        match setupCols rest labels (i + 1) with
        | none => none
        | some (.error e) => some (.error e)
        | some (.ok cs) => some (.ok (⟨lab, .char, []⟩ :: cs))
    | .Int _ =>
      match getLabel labels i with
      | none => none
      | some lab =>
        match setupCols rest labels (i + 1) with
        | none => none
        | some (.error e) => some (.error e)
        | some (.ok cs) => some (.ok (⟨lab, .int, []⟩ :: cs))
    | .Float _ _ =>
      match getLabel labels i with
      | none => none
      | some lab =>
        match setupCols rest labels (i + 1) with
        | none => none
        | some (.error e) => some (.error e)
        | some (.ok cs) => some (.ok (⟨lab, .float, []⟩ :: cs))
    | .Invalid invld => some (.error ⟨invld⟩)

/-- `AsciiTblParser::setup_table` (source lines 140..178): build the typed
columns and yeet them into an empty table pre-sized with `size`. -/
def setup_table (fmts : List TableEntryFormat) (labels : Option (List String))
    (size : Nat) : Option (Except InvalidFFCode AsciiTable) :=
  match setupCols fmts labels 0 with
  | none => none
  | some (.error e) => some (.error e)
  | some (.ok cols) => some (.ok (AsciiTable.new_sized cols size))

/-- The per-row typed-conversion closure of `decode_tbl` step (3b):
`field_vec.into_iter().enumerate().map(|(i, st)| TableEntry::from_parts(st, &fmts[i])).collect()`.
The iterator short-circuits at the first error; `fmts[i]` out of bounds is a
panic (outer `none`). -/
def rowParseGo (fmts : List TableEntryFormat) (i : Nat) :
    List (List Nat) → Option (Except ParseError (List TableEntry))
  | [] => some (.ok [])
  | st :: rest =>
    match fmts.get? i with
    | none => none
    | some fmt =>
      match from_parts st fmt with
      | .error e => some (.error e)
      | .ok entry =>
        match rowParseGo fmts (i + 1) rest with
        | none => none
        | some (.error e) => some (.error e)
        | some (.ok es) => some (.ok (entry :: es))

/-- One row's typed conversion (step 3b of `decode_tbl`). -/
def rowParse (fmts : List TableEntryFormat) (field_vec : List (List Nat)) :
    Option (Except ParseError (List TableEntry)) :=
  rowParseGo fmts 0 field_vec

/-- The fill loop of `decode_tbl` step (3c): `for row in fmtd_rows { tbl.add_row(row)?; }`. -/
def addAllRows : AsciiTable → List (List TableEntry) → Except AddRowError AsciiTable
  | tbl, [] => .ok tbl
  | tbl, row :: rest =>
    match tbl.add_row row with
    | .error e => .error e
    | .ok tbl2 => addAllRows tbl2 rest

/-- `Bitpix` (spec data model): the closed set of element-type codes. -/
inductive Bitpix where
  | Byte
  | Short
  | Int
  | Long
  | Spf
  | Dpf
deriving DecidableEq

/-- `Bitpix::byte()` constructor (crate `bitpix` module, by name). -/
def Bitpix.byte : Bitpix := .Byte

/-- `Bitpix::short()` constructor. -/
def Bitpix.short : Bitpix := .Short

/-- `Bitpix::int()` constructor. -/
def Bitpix.int : Bitpix := .Int

/-- `Bitpix::long()` constructor. -/
def Bitpix.long : Bitpix := .Long

/-- `Bitpix::spf()` constructor (single precision float). -/
def Bitpix.spf : Bitpix := .Spf

/-- `Bitpix::dpf()` constructor (double precision float). -/
def Bitpix.dpf : Bitpix := .Dpf

/-- An `f32` payload carried as its bit pattern; the code under study never
computes with it. -/
structure F32 where
  bits : Nat
deriving DecidableEq

/-- An `f64` payload carried as its bit pattern. -/
structure F64 where
  bits : Nat
deriving DecidableEq

/-- `ndarray::Array<T, IxDyn>`: an owned N-dimensional array, column-major. -/
structure ArrayD (α : Type) where
  shape : List Nat
  data : List α
deriving DecidableEq

/-- Modelled from the spec: `Image<T>` (file `generic_image.rs` is not among
the sources) — wraps the owned array. -/
structure Image (α : Type) where
  arr : ArrayD α
deriving DecidableEq

/-- Modelled from the spec: `Image::get_data` — a read-only view of the array. -/
def Image.get_data {α : Type} (img : Image α) : ArrayD α := img.arr

/-- Modelled from the spec: `Image::get_data_owned` — the owned array. -/
def Image.get_data_owned {α : Type} (img : Image α) : ArrayD α := img.arr

/-- `TypedImage` (source `typed_image.rs` lines 35..45): the sum type over the
six element types. The u8 payload is a `Nat` per element and the three signed
widths are `Int` per element; the variant tag, not the Lean element type, is
what the accessors dispatch on, exactly as in the source. -/
inductive TypedImage where
  | ByteImg (img : Image Nat)
  | I16Img (img : Image Int)
  | I32Img (img : Image Int)
  | I64Img (img : Image Int)
  | SpfImg (img : Image F32)
  | DpfImg (img : Image F64)
deriving DecidableEq

/-- `TypedImage::bpx` (source lines 126..138). -/
def TypedImage.bpx : TypedImage → Bitpix
  | .ByteImg _ => .Byte
  | .I16Img _ => .Short
  | .I32Img _ => .Int
  | .I64Img _ => .Long
  | .SpfImg _ => .Spf
  | .DpfImg _ => .Dpf

/-- Modelled from the spec: `WrongImgTypeErr` (`img_err` module is not among
the sources) — the type-mismatch error, carrying the Bitpix of the stored
variant and the Bitpix implied by the requested type. -/
structure WrongImgTypeErr where
  found : Bitpix
  requested : Bitpix
deriving DecidableEq

/-- `WrongImgTypeErr::new(var, requested)`: records the stored variant's
Bitpix and the requested one. -/
def WrongImgTypeErr.new (var : TypedImage) (req : Bitpix) : WrongImgTypeErr :=
  ⟨var.bpx, req⟩

/-- `TypedImage::as_u8_array` (source lines 140..145). -/
def TypedImage.as_u8_array : TypedImage → Except WrongImgTypeErr (ArrayD Nat)
  | .ByteImg img => .ok img.get_data
  | var => .error (WrongImgTypeErr.new var Bitpix.byte)

/-- `TypedImage::as_i16_array` (source lines 147..152). -/
def TypedImage.as_i16_array : TypedImage → Except WrongImgTypeErr (ArrayD Int)
  | .I16Img img => .ok img.get_data
  | var => .error (WrongImgTypeErr.new var Bitpix.short)

/-- `TypedImage::as_i32_array` (source lines 154..159). -/
def TypedImage.as_i32_array : TypedImage → Except WrongImgTypeErr (ArrayD Int)
  | .I32Img img => .ok img.get_data
  | var => .error (WrongImgTypeErr.new var Bitpix.int)

/-- `TypedImage::as_i64_array` (source lines 161..166). -/
def TypedImage.as_i64_array : TypedImage → Except WrongImgTypeErr (ArrayD Int)
  | .I64Img img => .ok img.get_data
  | var => .error (WrongImgTypeErr.new var Bitpix.long)

/-- `TypedImage::as_f32_array` (source lines 168..173). -/
def TypedImage.as_f32_array : TypedImage → Except WrongImgTypeErr (ArrayD F32)
  | .SpfImg img => .ok img.get_data
  | var => .error (WrongImgTypeErr.new var Bitpix.spf)

/-- `TypedImage::as_f64_array` (source lines 175..180). -/
def TypedImage.as_f64_array : TypedImage → Except WrongImgTypeErr (ArrayD F64)
  | .DpfImg img => .ok img.get_data
  | var => .error (WrongImgTypeErr.new var Bitpix.dpf)

/-- `TypedImage::as_owned_u8_array` (source lines 182..187). -/
def TypedImage.as_owned_u8_array : TypedImage → Except WrongImgTypeErr (ArrayD Nat)
  | .ByteImg img => .ok img.get_data_owned
  | var => .error (WrongImgTypeErr.new var Bitpix.byte)

/-- `TypedImage::as_owned_i16_array` (source lines 189..194). -/
def TypedImage.as_owned_i16_array : TypedImage → Except WrongImgTypeErr (ArrayD Int)
  | .I16Img img => .ok img.get_data_owned
  | var => .error (WrongImgTypeErr.new var Bitpix.short)

/-- `TypedImage::as_owned_i32_array` (source lines 196..201). -/
def TypedImage.as_owned_i32_array : TypedImage → Except WrongImgTypeErr (ArrayD Int)
  | .I32Img img => .ok img.get_data_owned
  | var => .error (WrongImgTypeErr.new var Bitpix.int)

/-- `TypedImage::as_owned_i64_array` (source lines 203..208). -/
def TypedImage.as_owned_i64_array : TypedImage → Except WrongImgTypeErr (ArrayD Int)
  | .I64Img img => .ok img.get_data_owned
  | var => .error (WrongImgTypeErr.new var Bitpix.long)

/-- `TypedImage::as_owned_f32_array` (source lines 210..215). -/
def TypedImage.as_owned_f32_array : TypedImage → Except WrongImgTypeErr (ArrayD F32)
  | .SpfImg img => .ok img.get_data_owned
  | var => .error (WrongImgTypeErr.new var Bitpix.spf)

/-- `TypedImage::as_owned_f64_array` (source lines 217..222). -/
def TypedImage.as_owned_f64_array : TypedImage → Except WrongImgTypeErr (ArrayD F64)
  | .DpfImg img => .ok img.get_data_owned
  | var => .error (WrongImgTypeErr.new var Bitpix.dpf)

/-- `Extension` (spec data model): an HDU's decoded payload. Only the two
variants exercised by the sources are modelled. -/
inductive Extension where
  | AsciiTable (tbl : RustronomyFits.AsciiTable)
  | Image (img : TypedImage)
deriving DecidableEq

/-- The error alternatives `decode_tbl` can propagate (the source erases them
into `anyhow::Error`; the sum keeps them apart). -/
inductive DecodeError where
  | ioError (e : IOError)
  | fmtParse (e : ParseIntError)
  | setupErr (e : InvalidFFCode)
  | utf8 (e : Utf8Error)
  | entry (e : ParseError)
  | addRow (e : AddRowError)
deriving DecidableEq

/-- `AsciiTblParser::decode_tbl` (source lines 46..138). The stages, in source
order: (1) block-rounded bulk read; (2) format-code parsing and `setup_table`
(note the source passes `num_blocks`, not `rows_in_file`, as the size);
(3a) chunking into rows and `split_row` over every chunk, errors unpacked
sequentially, then `resize(rows_in_file, vec!["ERROR"])`; (3b) typed
conversion per row, errors unpacked sequentially; (3c) sequential `add_row`.
The outer `Option` is `none` exactly when the Rust code would panic
(`chunks_exact(0)`, an out-of-bounds index or slice). The updated reader is
returned alongside the extension, mirroring the `&mut` parameter. -/
def decode_tbl (reader : RawFitsReader) (chars_in_row rows_in_file : Nat)
    (fields_in_row : Nat) (row_index_col_start : List Nat)
    (field_format : List String) (field_labels : Option (List String)) :
    Option (Except DecodeError (Extension × RawFitsReader)) :=
  let byte_size := chars_in_row * rows_in_file
  let num_blocks := byte_size / BLOCK_SIZE +
    (if byte_size % BLOCK_SIZE ≠ 0 then 1 else 0)
  match read_blocks reader (num_blocks * BLOCK_SIZE) with
  | .error e => some (.error (.ioError e))
  | .ok (whole_table, reader2) =>
    match collectExcept (field_format.map from_fortran_format_code) with
    | .error e => some (.error (.fmtParse e))
    | .ok fmts =>
      let field_lengs := fmts.map get_field_width
      match setup_table fmts field_labels num_blocks with
      | none => none
      | some (.error e) => some (.error (.setupErr e))
      | some (.ok tbl) =>
        if chars_in_row = 0 then none
        else
          match collectPanic ((chunksExact chars_in_row whole_table).map
              (fun raw => split_row raw row_index_col_start field_lengs)) with
          | none => none
          | some split_rows_err =>
            match collectExcept split_rows_err with
            | .error e => some (.error (.utf8 e))
            | .ok split_rows =>
              let split_rows2 := listResize split_rows rows_in_file [[69, 82, 82, 79, 82]]
              match collectPanic (split_rows2.map (fun field_vec => rowParse fmts field_vec)) with
              | none => none
              | some fmtd_rows_err =>
                match collectExcept fmtd_rows_err with
                | .error e => some (.error (.entry e))
                | .ok fmtd_rows =>
                  match addAllRows tbl fmtd_rows with
                  | .error e => some (.error (.addRow e))
                  | .ok tbl2 => some (.ok (.AsciiTable tbl2, reader2))

/-- The padding pass of `encode_tbl` step (2): push empty strings onto every
column that is shorter than the longest column. -/
def padColumns (cols : List (List (List Nat))) (len : Nat) : List (List (List Nat)) :=
  cols.map (fun col => col ++ List.replicate (len - col.length) [])

/-- Result of `encode_tbl`: either a completed write or a panic, with the
writer state at that point. -/
inductive EncodeResult where
  | panicked (w : RawFitsWriter)
  | finished (w : RawFitsWriter)
deriving DecidableEq

/-- `AsciiTblParser::encode_tbl` (source lines 192..237): reads the table
formats and maximum column length, destroys the table into text columns, pads
the short columns (step 2), and then unconditionally hits `todo!()` — nothing
is ever written through the writer. -/
def encode_tbl (tbl : AsciiTable) (writer : RawFitsWriter) : EncodeResult :=
  let tbl_fmts := tbl.get_tbl_fmt
  let tbl_len := tbl.max_col_len
  let cols := tbl.destroy
  let padded := padColumns cols tbl_len
  EncodeResult.panicked writer

/-- The field start offsets as the spec words describe them: the cumulative
sums of the preceding parsed field widths, in declaration order. Written from
the spec sentence, to be compared with what `decode_tbl` actually slices at. -/
def specPrefixSumsGo (acc : Nat) : List Nat → List Nat
  | [] => []
  | w :: ws => acc :: specPrefixSumsGo (acc + w) ws

/-- Cumulative start offsets per the spec: field `i` starts at the sum of the
widths of fields `0..i-1`. -/
def specPrefixSums (widths : List Nat) : List Nat :=
  specPrefixSumsGo 0 widths

/-! ### General lemmas about the embedded operations -/

/-- A successful bulk read consumes exactly `n` bytes of the stream. -/
theorem read_blocks_ok_length (r : RawFitsReader) (n : Nat) (buf : List Nat)
    (r2 : RawFitsReader) (h : read_blocks r n = .ok (buf, r2)) :
    r.bytes.length = n + r2.bytes.length ∧ buf.length = n := by
  unfold read_blocks at h
  split at h
  · exact absurd h (by simp)
  · split at h
    · exact absurd h (by simp)
    · rename_i hmod hlen
      rw [not_lt] at hlen
      simp only [Except.ok.injEq, Prod.mk.injEq] at h
      obtain ⟨hbuf, hr2⟩ := h
      subst hbuf; subst hr2
      constructor
      · simp only [List.length_drop]; omega
      · simp only [List.length_take]; omega

/-- Reading a whole stream whose length is exactly the block-aligned request. -/
theorem read_blocks_exact (l : List Nat) (n : Nat) (h1 : n % BLOCK_SIZE = 0)
    (h2 : l.length = n) : read_blocks ⟨l⟩ n = .ok (l, ⟨[]⟩) := by
  unfold read_blocks
  rw [if_neg (by simp [h1]), if_neg (by simp [h2])]
  subst h2
  rw [List.take_length, List.drop_length]

/-- Unfolding `chunksExact` when a full chunk is available. -/
theorem chunksExact_pos (k : Nat) (l : List Nat) (h : 0 < k ∧ k ≤ l.length) :
    chunksExact k l = l.take k :: chunksExact k (l.drop k) := by
  rw [chunksExact]; exact dif_pos h

/-- Unfolding `chunksExact` when no full chunk is available. -/
theorem chunksExact_neg (k : Nat) (l : List Nat) (h : ¬(0 < k ∧ k ≤ l.length)) :
    chunksExact k l = [] := by
  rw [chunksExact]; exact dif_neg h

/-- Chunking a uniform buffer whose length is an exact multiple of the chunk
size yields the evident list of uniform chunks. -/
theorem chunksExact_replicate_mul (k a : Nat) (hk : 0 < k) (m : Nat) :
    chunksExact k (List.replicate (m * k) a) = List.replicate m (List.replicate k a) := by
  induction m with
  | zero =>
    rw [chunksExact_neg k _ (by simp only [List.length_replicate]; omega)]
    rfl
  | succ m ih =>
    rw [chunksExact_pos]
    · rw [List.take_replicate, List.drop_replicate]
      have hmin : min k ((m + 1) * k) = k := by
        apply Nat.min_eq_left; calc k = 1 * k := (one_mul k).symm
        _ ≤ (m + 1) * k := Nat.mul_le_mul_right k (by omega)
      have hsub : (m + 1) * k - k = m * k := by
        have : (m + 1) * k = m * k + k := by ring
        omega
      rw [hmin, hsub, ih]
      rfl
    · constructor
      · exact hk
      · simp only [List.length_replicate]
        calc k = 1 * k := (one_mul k).symm
        _ ≤ (m + 1) * k := Nat.mul_le_mul_right k (by omega)

/-- `collectExcept` succeeds with one payload per input. -/
theorem collectExcept_ok_length {ε α : Type} (rs : List (Except ε α)) (xs : List α)
    (h : collectExcept rs = .ok xs) : xs.length = rs.length := by
  induction rs generalizing xs with
  | nil =>
    simp only [collectExcept] at h
    cases h
    rfl
  | cons r rest ih =>
    cases r with
    | error e =>
      simp only [collectExcept] at h
      exact absurd h (by simp)
    | ok a =>
      simp only [collectExcept] at h
      cases hrec : collectExcept rest with
      | error e =>
        rw [hrec] at h
        exact absurd h (by simp)
      | ok ys =>
        rw [hrec] at h
        cases Except.ok.inj h
        simp only [List.length_cons, ih ys hrec]

/-- `collectPanic` succeeds with one payload per input. -/
theorem collectPanic_some_length {α : Type} (os : List (Option α)) (xs : List α)
    (h : collectPanic os = some xs) : xs.length = os.length := by
  induction os generalizing xs with
  | nil =>
    simp only [collectPanic] at h
    cases h
    rfl
  | cons o rest ih =>
    cases o with
    | none =>
      simp only [collectPanic] at h
      exact absurd h (by simp)
    | some a =>
      simp only [collectPanic] at h
      cases hrec : collectPanic rest with
      | none =>
        rw [hrec] at h
        exact absurd h (by simp)
      | some ys =>
        rw [hrec] at h
        simp only [Option.map_some'] at h
        cases h
        simp only [List.length_cons, ih ys hrec]

/-- `Vec::resize` always returns a list of exactly the requested length. -/
theorem listResize_length {α : Type} (l : List α) (n : Nat) (d : α) :
    (listResize l n d).length = n := by
  unfold listResize
  split
  · rename_i hle; simp only [List.length_take]; omega
  · rename_i hgt
    simp only [List.length_append, List.length_replicate]
    omega

/-- Decoding one ASCII byte. -/
theorem from_utf8_single_ascii (a : Nat) (ha : a ≤ 127) : from_utf8 [a] = .ok [a] := by
  simp only [from_utf8, utf8Validate, if_pos ha]

/-- Slicing a window out of a uniform buffer. -/
theorem listSlice_replicate (n a s len : Nat) (h : s + len ≤ n) :
    listSlice (List.replicate n a) s (s + len) = List.replicate len a := by
  unfold listSlice
  rw [List.take_replicate, List.drop_replicate]
  congr 1
  omega

/-- `split_row` over a single-field layout: in-bounds slice, decodable text. -/
theorem split_row_one_ok (row : List Nat) (s len : Nat) (str : List Nat)
    (hb : s + len ≤ row.length)
    (hutf : from_utf8 (listSlice row s (s + len)) = .ok str) :
    split_row row [s] [len] = some (.ok [str]) := by
  simp only [split_row, splitRowGo, if_pos hb, hutf]

/-- `split_row` over a single-field layout: the slice runs past the row end,
so the Rust code panics. -/
theorem split_row_one_oob (row : List Nat) (s len : Nat)
    (h : ¬(s + len ≤ row.length)) :
    split_row row [s] [len] = none := by
  simp only [split_row, splitRowGo, if_neg h]

/-- The block count computed at the top of `decode_tbl` is the rounded-up
byte count divided by the block size. -/
theorem ceilBlocks_eq (b : Nat) :
    b / BLOCK_SIZE + (if b % BLOCK_SIZE ≠ 0 then 1 else 0)
      = (b + (BLOCK_SIZE - 1)) / BLOCK_SIZE := by
  simp only [BLOCK_SIZE]
  by_cases hb : b % 2880 = 0
  · simp only [hb, ne_eq, not_true_eq_false, if_false]
    omega
  · simp only [hb, ne_eq, not_false_eq_true, if_true]
    omega

/-- Columns built by `setup_table` start out empty. -/
theorem setupCols_ok_entries (fmts : List TableEntryFormat)
    (labels : Option (List String)) (i : Nat) (cs : List AsciiColumn)
    (h : setupCols fmts labels i = some (.ok cs)) :
    ∀ c ∈ cs, c.entries = [] := by
  induction fmts generalizing i cs with
  | nil =>
    simp only [setupCols] at h
    cases Except.ok.inj (Option.some.inj h)
    intro c hc
    exact absurd hc (List.not_mem_nil c)
  | cons f rest ih =>
    cases f with
    | Invalid s =>
      simp only [setupCols] at h
      exact absurd (Except.noConfusion (Option.some.inj h)) id
    | Char w =>
      simp only [setupCols] at h
      cases hg : getLabel labels i with
      | none => rw [hg] at h; exact absurd h (by simp)
      | some lab =>
        rw [hg] at h
        cases hrec : setupCols rest labels (i + 1) with
        | none => rw [hrec] at h; exact absurd h (by simp)
        | some r =>
          rw [hrec] at h
          cases r with
          | error e => exact absurd (Except.noConfusion (Option.some.inj h)) id
          | ok cs2 =>
            cases Except.ok.inj (Option.some.inj h)
            intro c hc
            rcases List.mem_cons.mp hc with hc | hc
            · rw [hc]
            · exact ih (i + 1) cs2 hrec c hc
    | Int w =>
      simp only [setupCols] at h
      cases hg : getLabel labels i with
      | none => rw [hg] at h; exact absurd h (by simp)
      | some lab =>
        rw [hg] at h
        cases hrec : setupCols rest labels (i + 1) with
        | none => rw [hrec] at h; exact absurd h (by simp)
        | some r =>
          rw [hrec] at h
          cases r with
          | error e => exact absurd (Except.noConfusion (Option.some.inj h)) id
          | ok cs2 =>
            cases Except.ok.inj (Option.some.inj h)
            intro c hc
            rcases List.mem_cons.mp hc with hc | hc
            · rw [hc]
            · exact ih (i + 1) cs2 hrec c hc
    | Float w p =>
      simp only [setupCols] at h
      cases hg : getLabel labels i with
      | none => rw [hg] at h; exact absurd h (by simp)
      | some lab =>
        rw [hg] at h
        cases hrec : setupCols rest labels (i + 1) with
        | none => rw [hrec] at h; exact absurd h (by simp)
        | some r =>
          rw [hrec] at h
          cases r with
          | error e => exact absurd (Except.noConfusion (Option.some.inj h)) id
          | ok cs2 =>
            cases Except.ok.inj (Option.some.inj h)
            intro c hc
            rcases List.mem_cons.mp hc with hc | hc
            · rw [hc]
            · exact ih (i + 1) cs2 hrec c hc

/-- A table produced by a successful `setup_table` has empty columns. -/
theorem setup_table_ok_empty (fmts : List TableEntryFormat)
    (labels : Option (List String)) (size : Nat) (tbl : AsciiTable)
    (h : setup_table fmts labels size = some (.ok tbl)) :
    ∀ c ∈ tbl.cols, c.entries = [] := by
  unfold setup_table at h
  cases hrec : setupCols fmts labels 0 with
  | none => rw [hrec] at h; exact absurd h (by simp)
  | some r =>
    rw [hrec] at h
    cases r with
    | error e => exact absurd (Except.noConfusion (Option.some.inj h)) id
    | ok cols =>
      cases Except.ok.inj (Option.some.inj h)
      exact setupCols_ok_entries fmts labels 0 cols hrec

/-- A matching row has exactly one entry per column. -/
theorem typesMatch_length (cs : List AsciiColumn) (es : List TableEntry)
    (h : typesMatch cs es = true) : es.length = cs.length := by
  induction cs generalizing es with
  | nil =>
    cases es with
    | nil => rfl
    | cons e es2 => simp [typesMatch] at h
  | cons c cs2 ih =>
    cases es with
    | nil => simp [typesMatch] at h
    | cons e es2 =>
      simp only [typesMatch, Bool.and_eq_true] at h
      simp only [List.length_cons, ih es2 h.2]

/-- One successful `add_row` keeps the column count and grows every column by
exactly one entry. -/
theorem add_row_lengths (tbl : AsciiTable) (row : List TableEntry)
    (t2 : AsciiTable) (h : tbl.add_row row = .ok t2) :
    t2.cols.length = tbl.cols.length ∧
      ∀ i, (hi : i < tbl.cols.length) → (hi2 : i < t2.cols.length) →
        (t2.cols.get ⟨i, hi2⟩).entries.length
          = (tbl.cols.get ⟨i, hi⟩).entries.length + 1 := by
  unfold AsciiTable.add_row at h
  split at h
  · rename_i hmatch
    have hlen := typesMatch_length tbl.cols row hmatch
    cases Except.ok.inj h
    constructor
    · simp only [List.length_zipWith]
      omega
    · intro i hi hi2
      simp only [List.get_eq_getElem, List.getElem_zipWith, List.length_append,
        List.length_cons, List.length_nil]
  · exact absurd h (by simp)

/-- Filling a table with `n` rows, one `add_row` at a time, grows every column
by exactly `n` entries. -/
theorem addAllRows_lengths (rs : List (List TableEntry)) (tbl t2 : AsciiTable)
    (h : addAllRows tbl rs = .ok t2) :
    t2.cols.length = tbl.cols.length ∧
      ∀ i, (hi : i < tbl.cols.length) → (hi2 : i < t2.cols.length) →
        (t2.cols.get ⟨i, hi2⟩).entries.length
          = (tbl.cols.get ⟨i, hi⟩).entries.length + rs.length := by
  induction rs generalizing tbl with
  | nil =>
    simp only [addAllRows] at h
    cases Except.ok.inj h
    exact ⟨rfl, fun i hi hi2 => rfl⟩
  | cons r rest ih =>
    simp only [addAllRows] at h
    cases hstep : tbl.add_row r with
    | error e => rw [hstep] at h; exact absurd h (by simp)
    | ok tmid =>
      rw [hstep] at h
      obtain ⟨hlen1, hget1⟩ := add_row_lengths tbl r tmid hstep
      obtain ⟨hlen2, hget2⟩ := ih tmid h
      refine ⟨by omega, fun i hi hi2 => ?_⟩
      have hmid : i < tmid.cols.length := by omega
      have := hget2 i hmid hi2
      have := hget1 i hi hmid
      simp only [List.length_cons]
      omega

/-- Scaffolding: a successful `decode_tbl` run assembled from the values of
its stages, stated so that concrete runs can be produced without ever forcing
a block-sized list through definitional evaluation. -/
theorem decode_tbl_eval
    (reader : RawFitsReader) (chars rows F : Nat) (starts : List Nat)
    (fmtstrs : List String) (labels : Option (List String))
    (whole_table : List Nat) (reader2 : RawFitsReader)
    (fmts : List TableEntryFormat) (tbl : AsciiTable)
    (sre : List (Except Utf8Error (List (List Nat))))
    (sr : List (List (List Nat)))
    (fre : List (Except ParseError (List TableEntry)))
    (fr : List (List TableEntry)) (tbl2 : AsciiTable)
    (h1 : read_blocks reader ((chars * rows / BLOCK_SIZE +
        (if chars * rows % BLOCK_SIZE ≠ 0 then 1 else 0)) * BLOCK_SIZE)
      = .ok (whole_table, reader2))
    (h2 : collectExcept (fmtstrs.map from_fortran_format_code) = .ok fmts)
    (h3 : setup_table fmts labels (chars * rows / BLOCK_SIZE +
        (if chars * rows % BLOCK_SIZE ≠ 0 then 1 else 0)) = some (.ok tbl))
    (h4 : chars ≠ 0)
    (h5 : collectPanic ((chunksExact chars whole_table).map
        (fun raw => split_row raw starts (fmts.map get_field_width))) = some sre)
    (h6 : collectExcept sre = .ok sr)
    (h7 : collectPanic ((listResize sr rows [[69, 82, 82, 79, 82]]).map
        (fun field_vec => rowParse fmts field_vec)) = some fre)
    (h8 : collectExcept fre = .ok fr)
    (h9 : addAllRows tbl fr = .ok tbl2) :
    decode_tbl reader chars rows F starts fmtstrs labels
      = some (.ok (.AsciiTable tbl2, reader2)) := by
  unfold decode_tbl
  simp only [h1, h2, h3, h5, h6, h7, h8, h9, if_neg h4]

/-- Scaffolding: a `decode_tbl` run that panics in the row-splitting stage. -/
theorem decode_tbl_eval_panic
    (reader : RawFitsReader) (chars rows F : Nat) (starts : List Nat)
    (fmtstrs : List String) (labels : Option (List String))
    (whole_table : List Nat) (reader2 : RawFitsReader)
    (fmts : List TableEntryFormat) (tbl : AsciiTable)
    (h1 : read_blocks reader ((chars * rows / BLOCK_SIZE +
        (if chars * rows % BLOCK_SIZE ≠ 0 then 1 else 0)) * BLOCK_SIZE)
      = .ok (whole_table, reader2))
    (h2 : collectExcept (fmtstrs.map from_fortran_format_code) = .ok fmts)
    (h3 : setup_table fmts labels (chars * rows / BLOCK_SIZE +
        (if chars * rows % BLOCK_SIZE ≠ 0 then 1 else 0)) = some (.ok tbl))
    (h4 : chars ≠ 0)
    (h5 : collectPanic ((chunksExact chars whole_table).map
        (fun raw => split_row raw starts (fmts.map get_field_width))) = none) :
    decode_tbl reader chars rows F starts fmtstrs labels = none := by
  unfold decode_tbl
  simp only [h1, h2, h3, h5, if_neg h4]

/-! ### Concrete decode runs (witness and counterexample inputs) -/

/-- One declared row of 2880 characters, a single `A1` field at offset 0, over
a buffer of one block of letter `A` bytes: the decode succeeds with one row. -/
theorem decode_one_row_run :
    decode_tbl ⟨List.replicate 2880 65⟩ 2880 1 1 [0] ["A1"] none
      = some (.ok (.AsciiTable ⟨[⟨none, .char, [.Char [65]]⟩], 1⟩, ⟨[]⟩)) := by
  have h1 : read_blocks ⟨List.replicate 2880 65⟩ ((2880 * 1 / BLOCK_SIZE +
      (if 2880 * 1 % BLOCK_SIZE ≠ 0 then 1 else 0)) * BLOCK_SIZE)
      = .ok (List.replicate 2880 65, ⟨[]⟩) := by
    have harg : (2880 * 1 / BLOCK_SIZE +
        (if 2880 * 1 % BLOCK_SIZE ≠ 0 then 1 else 0)) * BLOCK_SIZE = 2880 := by decide
    rw [harg]
    exact read_blocks_exact _ 2880 (by decide) (by rw [List.length_replicate])
  have h5 : collectPanic ((chunksExact 2880 (List.replicate 2880 65)).map
      (fun raw => split_row raw [0] ([TableEntryFormat.Char 1].map get_field_width)))
      = some [.ok [[65]]] := by
    have hch : chunksExact 2880 (List.replicate 2880 65) = [List.replicate 2880 65] := by
      have h := chunksExact_replicate_mul 2880 65 (by decide) 1
      rw [one_mul] at h
      rw [h]
      rfl
    rw [hch]
    simp only [List.map_cons, List.map_nil, get_field_width]
    rw [split_row_one_ok (List.replicate 2880 65) 0 1 [65]
      (by rw [List.length_replicate]; decide)
      (by rw [listSlice_replicate 2880 65 0 1 (by decide), List.replicate_one]
          exact from_utf8_single_ascii 65 (by decide))]
    rfl
  exact decode_tbl_eval ⟨List.replicate 2880 65⟩ 2880 1 1 [0] ["A1"] none
    (List.replicate 2880 65) ⟨[]⟩ [.Char 1] ⟨[⟨none, .char, []⟩], 1⟩
    [.ok [[65]]] [[[65]]] [.ok [.Char [65]]] [[.Char [65]]]
    ⟨[⟨none, .char, [.Char [65]]⟩], 1⟩
    h1 (by decide) (by decide) (by decide) h5 (by decide) (by decide) (by decide) (by decide)

/-! ### Claim theorems -/

/-- C1: for every row count R > 0 and row width W > 0, `decode_tbl` reads a
buffer of exactly `ceil(R*W/2880)*2880` bytes (the stream shrinks by exactly
that much), and whenever it returns a table, every column of that table holds
exactly R entries: the padding rows introduced by the block-rounded read are
discarded by the `resize` step and no declared row is dropped or duplicated. -/
theorem decode_tbl_row_count
    (reader : RawFitsReader) (chars rows F : Nat) (starts : List Nat)
    (fmtstrs : List String) (labels : Option (List String))
    (t : AsciiTable) (reader2 : RawFitsReader)
    (hrows : 0 < rows) (hchars : 0 < chars)
    (h : decode_tbl reader chars rows F starts fmtstrs labels
      = some (.ok (.AsciiTable t, reader2))) :
    reader.bytes.length
        = (chars * rows + (BLOCK_SIZE - 1)) / BLOCK_SIZE * BLOCK_SIZE
            + reader2.bytes.length
      ∧ ∀ c ∈ t.cols, c.entries.length = rows := by
  simp only [decode_tbl] at h
  split at h
  · exact absurd h (by simp)
  · rename_i res wt r2 hread
    split at h
    · exact absurd h (by simp)
    · rename_i fmts hfmts
      split at h
      · exact absurd h (by simp)
      · exact absurd h (by simp)
      · rename_i tbl0 hsetup
        split at h
        · exact absurd h (by simp)
        · rename_i hchars0
          split at h
          · exact absurd h (by simp)
          · rename_i sre hsre
            split at h
            · exact absurd h (by simp)
            · rename_i sr hsr
              split at h
              · exact absurd h (by simp)
              · rename_i fre hfre
                split at h
                · exact absurd h (by simp)
                · rename_i fr hfr
                  split at h
                  · exact absurd h (by simp)
                  · rename_i tbl2 hadd
                    simp only [Option.some.injEq, Except.ok.injEq, Prod.mk.injEq,
                      Extension.AsciiTable.injEq] at h
                    rcases h with ⟨rfl, rfl⟩
                    constructor
                    · have hlen := (read_blocks_ok_length _ _ _ _ hread).1
                      rw [ceilBlocks_eq] at hlen
                      exact hlen
                    · have hfrlen : fr.length = rows := by
                        have e1 := collectExcept_ok_length fre fr hfr
                        have e2 := collectPanic_some_length _ fre hfre
                        rw [List.length_map, listResize_length] at e2
                        omega
                      have hempty := setup_table_ok_empty _ _ _ _ hsetup
                      obtain ⟨hclen, hcget⟩ := addAllRows_lengths fr tbl0 _ hadd
                      intro c hc
                      obtain ⟨n, rfl⟩ := List.mem_iff_get.mp hc
                      have hi : n.1 < tbl0.cols.length := by
                        have := n.isLt
                        omega
                      have hbase := hempty _ (List.get_mem tbl0.cols n.1 hi)
                      have hstep := hcget n.1 hi n.isLt
                      rw [hbase] at hstep
                      simp only [List.length_nil] at hstep
                      show (List.get _ ⟨n.1, n.isLt⟩).entries.length = rows
                      omega

/-- Witness for C1: the conclusion at a concrete one-row, one-field table over
a single block, the hypotheses discharged there. -/
theorem decode_tbl_row_count_witness :
    (⟨List.replicate 2880 65⟩ : RawFitsReader).bytes.length
        = (2880 * 1 + (BLOCK_SIZE - 1)) / BLOCK_SIZE * BLOCK_SIZE
            + (⟨[]⟩ : RawFitsReader).bytes.length
      ∧ (⟨none, .char, [.Char [65]]⟩ : AsciiColumn).entries.length = 1 :=
  ⟨(decode_tbl_row_count ⟨List.replicate 2880 65⟩ 2880 1 1 [0] ["A1"] none
      ⟨[⟨none, .char, [.Char [65]]⟩], 1⟩ ⟨[]⟩ (by decide) (by decide)
      decode_one_row_run).1,
    (decode_tbl_row_count ⟨List.replicate 2880 65⟩ 2880 1 1 [0] ["A1"] none
      ⟨[⟨none, .char, [.Char [65]]⟩], 1⟩ ⟨[]⟩ (by decide) (by decide)
      decode_one_row_run).2 ⟨none, .char, [.Char [65]]⟩ (by decide)⟩

/-- C2: for every `TypedImage` and every element type T among u8, i16, i32,
i64, f32, f64, the borrowing accessor `as_T_array` and the consuming accessor
`as_owned_T_array` succeed exactly when the stored variant's element type is T;
on success they return the stored array unchanged, and on mismatch they return
a `WrongImgTypeErr` carrying the Bitpix of the stored variant and the Bitpix
implied by the requested type. -/
theorem typed_image_accessors (img : TypedImage) :
    ((∀ i, img = .ByteImg i → img.as_u8_array = .ok i.arr ∧ img.as_owned_u8_array = .ok i.arr)
      ∧ (img.bpx ≠ Bitpix.byte →
          img.as_u8_array = .error ⟨img.bpx, Bitpix.byte⟩
            ∧ img.as_owned_u8_array = .error ⟨img.bpx, Bitpix.byte⟩)
      ∧ ((∃ a, img.as_u8_array = .ok a) ↔ img.bpx = Bitpix.byte)
      ∧ ((∃ a, img.as_owned_u8_array = .ok a) ↔ img.bpx = Bitpix.byte))
    ∧ ((∀ i, img = .I16Img i → img.as_i16_array = .ok i.arr ∧ img.as_owned_i16_array = .ok i.arr)
      ∧ (img.bpx ≠ Bitpix.short →
          img.as_i16_array = .error ⟨img.bpx, Bitpix.short⟩
            ∧ img.as_owned_i16_array = .error ⟨img.bpx, Bitpix.short⟩)
      ∧ ((∃ a, img.as_i16_array = .ok a) ↔ img.bpx = Bitpix.short)
      ∧ ((∃ a, img.as_owned_i16_array = .ok a) ↔ img.bpx = Bitpix.short))
    ∧ ((∀ i, img = .I32Img i → img.as_i32_array = .ok i.arr ∧ img.as_owned_i32_array = .ok i.arr)
      ∧ (img.bpx ≠ Bitpix.int →
          img.as_i32_array = .error ⟨img.bpx, Bitpix.int⟩
            ∧ img.as_owned_i32_array = .error ⟨img.bpx, Bitpix.int⟩)
      ∧ ((∃ a, img.as_i32_array = .ok a) ↔ img.bpx = Bitpix.int)
      ∧ ((∃ a, img.as_owned_i32_array = .ok a) ↔ img.bpx = Bitpix.int))
    ∧ ((∀ i, img = .I64Img i → img.as_i64_array = .ok i.arr ∧ img.as_owned_i64_array = .ok i.arr)
      ∧ (img.bpx ≠ Bitpix.long →
          img.as_i64_array = .error ⟨img.bpx, Bitpix.long⟩
            ∧ img.as_owned_i64_array = .error ⟨img.bpx, Bitpix.long⟩)
      ∧ ((∃ a, img.as_i64_array = .ok a) ↔ img.bpx = Bitpix.long)
      ∧ ((∃ a, img.as_owned_i64_array = .ok a) ↔ img.bpx = Bitpix.long))
    ∧ ((∀ i, img = .SpfImg i → img.as_f32_array = .ok i.arr ∧ img.as_owned_f32_array = .ok i.arr)
      ∧ (img.bpx ≠ Bitpix.spf →
          img.as_f32_array = .error ⟨img.bpx, Bitpix.spf⟩
            ∧ img.as_owned_f32_array = .error ⟨img.bpx, Bitpix.spf⟩)
      ∧ ((∃ a, img.as_f32_array = .ok a) ↔ img.bpx = Bitpix.spf)
      ∧ ((∃ a, img.as_owned_f32_array = .ok a) ↔ img.bpx = Bitpix.spf))
    ∧ ((∀ i, img = .DpfImg i → img.as_f64_array = .ok i.arr ∧ img.as_owned_f64_array = .ok i.arr)
      ∧ (img.bpx ≠ Bitpix.dpf →
          img.as_f64_array = .error ⟨img.bpx, Bitpix.dpf⟩
            ∧ img.as_owned_f64_array = .error ⟨img.bpx, Bitpix.dpf⟩)
      ∧ ((∃ a, img.as_f64_array = .ok a) ↔ img.bpx = Bitpix.dpf)
      ∧ ((∃ a, img.as_owned_f64_array = .ok a) ↔ img.bpx = Bitpix.dpf)) := by
  cases img <;>
    simp [TypedImage.as_u8_array, TypedImage.as_owned_u8_array,
      TypedImage.as_i16_array, TypedImage.as_owned_i16_array,
      TypedImage.as_i32_array, TypedImage.as_owned_i32_array,
      TypedImage.as_i64_array, TypedImage.as_owned_i64_array,
      TypedImage.as_f32_array, TypedImage.as_owned_f32_array,
      TypedImage.as_f64_array, TypedImage.as_owned_f64_array,
      TypedImage.bpx, WrongImgTypeErr.new, Image.get_data, Image.get_data_owned,
      Bitpix.byte, Bitpix.short, Bitpix.int, Bitpix.long, Bitpix.spf, Bitpix.dpf]

/-- Witness for C2: a 32-bit-float image rejected by the i32 accessors with
both Bitpix values recorded, and returned unchanged by the f32 accessors. -/
theorem typed_image_accessors_witness :
    ((TypedImage.SpfImg ⟨⟨[2], [⟨1⟩, ⟨2⟩]⟩⟩).as_i32_array
        = .error ⟨Bitpix.Spf, Bitpix.int⟩
      ∧ (TypedImage.SpfImg ⟨⟨[2], [⟨1⟩, ⟨2⟩]⟩⟩).as_owned_i32_array
        = .error ⟨Bitpix.Spf, Bitpix.int⟩)
    ∧ ((TypedImage.SpfImg ⟨⟨[2], [⟨1⟩, ⟨2⟩]⟩⟩).as_f32_array = .ok ⟨[2], [⟨1⟩, ⟨2⟩]⟩
      ∧ (TypedImage.SpfImg ⟨⟨[2], [⟨1⟩, ⟨2⟩]⟩⟩).as_owned_f32_array
        = .ok ⟨[2], [⟨1⟩, ⟨2⟩]⟩) :=
  ⟨(typed_image_accessors (TypedImage.SpfImg ⟨⟨[2], [⟨1⟩, ⟨2⟩]⟩⟩)).2.2.1.2.1 (by decide),
    (typed_image_accessors (TypedImage.SpfImg ⟨⟨[2], [⟨1⟩, ⟨2⟩]⟩⟩)).2.2.2.2.1.1
      ⟨⟨[2], [⟨1⟩, ⟨2⟩]⟩⟩ rfl⟩

/-- C3: field-format-code parsing is total — for every input string,
including one whose width or precision digits are unparsable, the modelled
`from_fortran_format_code` produces a `TableEntryFormat` value inside `.ok`
(never the `ParseIntError` its result type allows), and every non-conforming
input is mapped to `Invalid` carrying exactly the original text; the error
surfaces only later, when `setup_table` consumes the `Invalid` value (C4). -/
theorem format_code_parse_total (s : String) :
    ∃ fmt, from_fortran_format_code s = .ok fmt ∧
      ((∃ w, fmt = .Char w) ∨ (∃ w, fmt = .Int w) ∨ (∃ w p, fmt = .Float w p)
        ∨ fmt = .Invalid s) := by
  unfold from_fortran_format_code
  repeat' split
  all_goals
    first
      | exact ⟨_, rfl, Or.inl ⟨_, rfl⟩⟩
      | exact ⟨_, rfl, Or.inr (Or.inl ⟨_, rfl⟩)⟩
      | exact ⟨_, rfl, Or.inr (Or.inr (Or.inl ⟨_, _, rfl⟩))⟩
      | exact ⟨_, rfl, Or.inr (Or.inr (Or.inr rfl))⟩

/-- A non-`Invalid` format head lets the `setup_table` loop continue, so an
error from the tail propagates. -/
theorem setupCols_cons_skip (f : TableEntryFormat) (hf : ∀ s, f ≠ .Invalid s)
    (rest : List TableEntryFormat) (labels : Option (List String)) (i : Nat)
    (lab : Option String) (hlab : getLabel labels i = some lab)
    (r : InvalidFFCode) (hrec : setupCols rest labels (i + 1) = some (.error r)) :
    setupCols (f :: rest) labels i = some (.error r) := by
  cases f with
  | Invalid s => exact absurd rfl (hf s)
  | Char w => simp [setupCols, hlab, hrec]
  | Int w => simp [setupCols, hlab, hrec]
  | Float w p => simp [setupCols, hlab, hrec]

/-- The column-building loop aborts with the `InvalidFFCode` of an `Invalid`
format, provided the labels (when present) cover the fields before it. -/
theorem setupCols_first_invalid (fmts : List TableEntryFormat)
    (labels : Option (List String)) (i : Nat)
    (hinv : ∃ s, TableEntryFormat.Invalid s ∈ fmts)
    (hlab : labels = none ∨ ∃ v, labels = some v ∧ i + fmts.length ≤ v.length) :
    ∃ s, TableEntryFormat.Invalid s ∈ fmts ∧
      setupCols fmts labels i = some (.error ⟨s⟩) := by
  induction fmts generalizing i with
  | nil =>
    obtain ⟨s, hs⟩ := hinv
    exact absurd hs (List.not_mem_nil _)
  | cons f rest ih =>
    by_cases hf : ∃ s, f = TableEntryFormat.Invalid s
    · obtain ⟨s, rfl⟩ := hf
      exact ⟨s, List.mem_cons_self _ _, by simp [setupCols]⟩
    · push_neg at hf
      obtain ⟨s, hs⟩ := hinv
      have hs2 : TableEntryFormat.Invalid s ∈ rest := by
        rcases List.mem_cons.mp hs with h | h
        · exact absurd h.symm (hf s)
        · exact h
      have hlab2 : labels = none ∨ ∃ v, labels = some v ∧ (i + 1) + rest.length ≤ v.length := by
        rcases hlab with h | ⟨v, hv, hle⟩
        · exact Or.inl h
        · refine Or.inr ⟨v, hv, ?_⟩
          simp only [List.length_cons] at hle
          omega
      have hglab : ∃ lab, getLabel labels i = some lab := by
        rcases hlab with h | ⟨v, hv, hle⟩
        · exact ⟨none, by simp [getLabel, h]⟩
        · subst hv
          have hi : i < v.length := by
            simp only [List.length_cons] at hle
            omega
          exact ⟨some (v.get ⟨i, hi⟩), by simp [getLabel, List.get?_eq_get hi]⟩
      obtain ⟨lab, hlabeq⟩ := hglab
      obtain ⟨s2, hs3, hrec⟩ := ih (i + 1) ⟨s, hs2⟩ hlab2
      exact ⟨s2, List.mem_cons_of_mem _ hs3,
        setupCols_cons_skip f hf rest labels i lab hlabeq _ hrec⟩

/-- C4: for every list of parsed field formats containing at least one
`Invalid` variant (labels, when supplied, covering the fields), `setup_table`
fails with an `InvalidFFCode` setup error carrying the offending original
format-code text, and no table value is constructed — the result is the error
alone. -/
theorem setup_table_invalid_aborts (fmts : List TableEntryFormat)
    (labels : Option (List String)) (size : Nat)
    (hinv : ∃ s, TableEntryFormat.Invalid s ∈ fmts)
    (hlab : labels = none ∨ ∃ v, labels = some v ∧ fmts.length ≤ v.length) :
    ∃ s, TableEntryFormat.Invalid s ∈ fmts ∧
      setup_table fmts labels size = some (.error ⟨s⟩) := by
  have hlab0 : labels = none ∨ ∃ v, labels = some v ∧ 0 + fmts.length ≤ v.length := by
    rcases hlab with h | ⟨v, hv, hle⟩
    · exact Or.inl h
    · exact Or.inr ⟨v, hv, by omega⟩
  obtain ⟨s, hs, hsc⟩ := setupCols_first_invalid fmts labels 0 hinv hlab0
  exact ⟨s, hs, by simp [setup_table, hsc]⟩

/-- Witness for C4: a format list holding one valid and one invalid code. -/
theorem setup_table_invalid_aborts_witness :
    ∃ s, TableEntryFormat.Invalid s
        ∈ [TableEntryFormat.Char 3, TableEntryFormat.Invalid "Q9"] ∧
      setup_table [TableEntryFormat.Char 3, TableEntryFormat.Invalid "Q9"] none 7
        = some (.error ⟨s⟩) :=
  setup_table_invalid_aborts [TableEntryFormat.Char 3, TableEntryFormat.Invalid "Q9"]
    none 7 ⟨"Q9", by simp⟩ (Or.inl rfl)

/-- C5 (bug evidence): a concrete decode with 1440 characters per row and 2
declared rows over one 2880-byte block. The decode succeeds and both declared
rows are present, but the table records construction size 1 — `num_blocks`,
the number of 2880-byte blocks read — where the declared row count is 2: the
source passes `num_blocks` to `setup_table` where the spec requires the table
to be pre-sized to `rows_in_file`. -/
theorem decode_tbl_presize_bug :
    decode_tbl ⟨List.replicate 2880 65⟩ 1440 2 1 [0] ["A1"] none
      = some (.ok (.AsciiTable ⟨[⟨none, .char, [.Char [65], .Char [65]]⟩], 1⟩, ⟨[]⟩))
    ∧ (⟨[⟨none, .char, [.Char [65], .Char [65]]⟩], 1⟩ : AsciiTable).size = 1
    ∧ (1 : Nat) ≠ 2 := by
  refine ⟨?_, rfl, by decide⟩
  have h1 : read_blocks ⟨List.replicate 2880 65⟩ ((1440 * 2 / BLOCK_SIZE +
      (if 1440 * 2 % BLOCK_SIZE ≠ 0 then 1 else 0)) * BLOCK_SIZE)
      = .ok (List.replicate 2880 65, ⟨[]⟩) := by
    have harg : (1440 * 2 / BLOCK_SIZE +
        (if 1440 * 2 % BLOCK_SIZE ≠ 0 then 1 else 0)) * BLOCK_SIZE = 2880 := by decide
    rw [harg]
    exact read_blocks_exact _ 2880 (by decide) (by rw [List.length_replicate])
  have h5 : collectPanic ((chunksExact 1440 (List.replicate 2880 65)).map
      (fun raw => split_row raw [0] ([TableEntryFormat.Char 1].map get_field_width)))
      = some [.ok [[65]], .ok [[65]]] := by
    have hch : chunksExact 1440 (List.replicate 2880 65)
        = [List.replicate 1440 65, List.replicate 1440 65] := by
      have h := chunksExact_replicate_mul 1440 65 (by decide) 2
      rw [show (2 * 1440 : Nat) = 2880 from by decide] at h
      rw [h]
      rfl
    rw [hch]
    simp only [List.map_cons, List.map_nil, get_field_width]
    rw [split_row_one_ok (List.replicate 1440 65) 0 1 [65]
      (by rw [List.length_replicate]; decide)
      (by rw [listSlice_replicate 1440 65 0 1 (by decide), List.replicate_one]
          exact from_utf8_single_ascii 65 (by decide))]
    rfl
  exact decode_tbl_eval ⟨List.replicate 2880 65⟩ 1440 2 1 [0] ["A1"] none
    (List.replicate 2880 65) ⟨[]⟩ [.Char 1] ⟨[⟨none, .char, []⟩], 1⟩
    [.ok [[65]], .ok [[65]]] [[[65]], [[65]]]
    [.ok [.Char [65]], .ok [.Char [65]]] [[.Char [65]], [.Char [65]]]
    ⟨[⟨none, .char, [.Char [65], .Char [65]]⟩], 1⟩
    h1 (by decide) (by decide) (by decide) h5 (by decide) (by decide) (by decide) (by decide)

/-- C6 counterexample: a decode whose caller supplies start offset 1 for a
width-1 field. The spec prefix sums of the parsed widths are `[0]`, yet the
decoded entry is the byte at offset 1 (66), not the byte the prefix-sum window
`[0, 1)` holds (65): the offsets actually used for slicing are the
caller-supplied `row_index_col_start`, not the cumulative width sums. -/
theorem decode_tbl_offsets_cex :
    decode_tbl ⟨[65, 66] ++ List.replicate 2878 32⟩ 1440 2 1 [1] ["A1"] none
      = some (.ok (.AsciiTable ⟨[⟨none, .char, [.Char [66], .Char [32]]⟩], 1⟩, ⟨[]⟩))
    ∧ specPrefixSums ([TableEntryFormat.Char 1].map get_field_width) = [0]
    ∧ ([1] : List Nat) ≠ [0]
    ∧ listSlice ([65, 66] ++ List.replicate 2878 32) 0 (0 + 1) = [65]
    ∧ TableEntry.Char [66] ≠ TableEntry.Char [65] := by
  refine ⟨?_, by decide, by decide, ?_, by decide⟩
  · have hlen : ([65, 66] ++ List.replicate 2878 32 : List Nat).length = 2880 := by
      rw [List.length_append, List.length_replicate]
      decide
    have h1 : read_blocks ⟨[65, 66] ++ List.replicate 2878 32⟩ ((1440 * 2 / BLOCK_SIZE +
        (if 1440 * 2 % BLOCK_SIZE ≠ 0 then 1 else 0)) * BLOCK_SIZE)
        = .ok ([65, 66] ++ List.replicate 2878 32, ⟨[]⟩) := by
      have harg : (1440 * 2 / BLOCK_SIZE +
          (if 1440 * 2 % BLOCK_SIZE ≠ 0 then 1 else 0)) * BLOCK_SIZE = 2880 := by decide
      rw [harg]
      exact read_blocks_exact _ 2880 (by decide) hlen
    have htake : ([65, 66] ++ List.replicate 2878 32 : List Nat).take 1440
        = [65, 66] ++ List.replicate 1438 32 := by
      rw [List.take_append_eq_append_take,
        List.take_of_length_le (by decide : ([65, 66] : List Nat).length ≤ 1440),
        show (1440 - ([65, 66] : List Nat).length) = 1438 from by decide,
        List.take_replicate, show min 1438 2878 = 1438 from by decide]
    have hdrop : ([65, 66] ++ List.replicate 2878 32 : List Nat).drop 1440
        = List.replicate 1440 32 := by
      rw [List.drop_append_eq_append_drop,
        List.drop_eq_nil_of_le (by decide : ([65, 66] : List Nat).length ≤ 1440),
        show (1440 - ([65, 66] : List Nat).length) = 1438 from by decide,
        List.drop_replicate, show (2878 - 1438 : Nat) = 1440 from by decide,
        List.nil_append]
    have hch : chunksExact 1440 ([65, 66] ++ List.replicate 2878 32)
        = [[65, 66] ++ List.replicate 1438 32, List.replicate 1440 32] := by
      rw [chunksExact_pos 1440 _ (by rw [hlen]; exact ⟨by decide, by decide⟩)]
      rw [htake, hdrop]
      rw [chunksExact_pos 1440 _ (by rw [List.length_replicate]; exact ⟨by decide, by decide⟩)]
      rw [List.take_replicate, show min 1440 1440 = 1440 from by decide,
        List.drop_replicate, show (1440 - 1440 : Nat) = 0 from by decide]
      rw [chunksExact_neg 1440 _ (by rw [List.length_replicate]; omega)]
    have hsl : listSlice ([65, 66] ++ List.replicate 1438 32) 1 (1 + 1) = [66] := by
      unfold listSlice
      rw [List.take_append_eq_append_take,
        show ((1 + 1) - ([65, 66] : List Nat).length) = 0 from by decide,
        List.take_zero, List.append_nil]
      decide
    have h5 : collectPanic ((chunksExact 1440 ([65, 66] ++ List.replicate 2878 32)).map
        (fun raw => split_row raw [1] ([TableEntryFormat.Char 1].map get_field_width)))
        = some [.ok [[66]], .ok [[32]]] := by
      rw [hch]
      simp only [List.map_cons, List.map_nil, get_field_width]
      rw [split_row_one_ok ([65, 66] ++ List.replicate 1438 32) 1 1 [66]
        (by rw [List.length_append, List.length_replicate]; decide)
        (by rw [hsl]; exact from_utf8_single_ascii 66 (by decide))]
      rw [split_row_one_ok (List.replicate 1440 32) 1 1 [32]
        (by rw [List.length_replicate]; decide)
        (by rw [listSlice_replicate 1440 32 1 1 (by decide), List.replicate_one]
            exact from_utf8_single_ascii 32 (by decide))]
      rfl
    exact decode_tbl_eval ⟨[65, 66] ++ List.replicate 2878 32⟩ 1440 2 1 [1] ["A1"] none
      ([65, 66] ++ List.replicate 2878 32) ⟨[]⟩ [.Char 1] ⟨[⟨none, .char, []⟩], 1⟩
      [.ok [[66]], .ok [[32]]] [[[66]], [[32]]]
      [.ok [.Char [66]], .ok [.Char [32]]] [[.Char [66]], [.Char [32]]]
      ⟨[⟨none, .char, [.Char [66], .Char [32]]⟩], 1⟩
      h1 (by decide) (by decide) (by decide) h5 (by decide) (by decide) (by decide) (by decide)
  · unfold listSlice
    rw [List.take_append_eq_append_take,
      show ((0 + 1) - ([65, 66] : List Nat).length) = 0 from by decide,
      List.take_zero, List.append_nil, List.drop_zero]
    decide

/-- The per-field characterisation of the `split_row` loop: field `i` of a
successfully split row is the UTF-8 decode of the byte window that starts at
the caller-supplied offset `field_start[i]` and spans `field_len[i]` bytes. -/
theorem splitRowGo_spec (raw : List Nat) (fs : List Nat) :
    ∀ (fl : List Nat) (strs : List (List Nat)),
      splitRowGo raw fs fl = some (.ok strs) →
      strs.length = fs.length ∧ fs.length ≤ fl.length ∧
        ∀ i, (hi : i < fs.length) → (hfl : i < fl.length) → (hs : i < strs.length) →
          from_utf8 (listSlice raw (fs.get ⟨i, hi⟩)
            (fs.get ⟨i, hi⟩ + fl.get ⟨i, hfl⟩)) = .ok (strs.get ⟨i, hs⟩) := by
  induction fs with
  | nil =>
    intro fl strs h
    simp only [splitRowGo] at h
    cases Except.ok.inj (Option.some.inj h)
    refine ⟨rfl, Nat.zero_le _, ?_⟩
    intro i hi
    exact absurd hi (by simp)
  | cons s fs2 ih =>
    intro fl strs h
    cases fl with
    | nil =>
      simp only [splitRowGo] at h
      exact absurd h (by simp)
    | cons len fl2 =>
      simp only [splitRowGo] at h
      split at h
      · rename_i hbound
        cases hutf : from_utf8 (listSlice raw s (s + len)) with
        | error e => rw [hutf] at h; exact absurd h (by simp)
        | ok str =>
          rw [hutf] at h
          cases hrec : splitRowGo raw fs2 fl2 with
          | none => rw [hrec] at h; exact absurd h (by simp)
          | some r =>
            rw [hrec] at h
            cases r with
            | error e => exact absurd (Except.noConfusion (Option.some.inj h)) id
            | ok rest =>
              cases Except.ok.inj (Option.some.inj h)
              obtain ⟨hlen, hle, hget⟩ := ih fl2 rest hrec
              refine ⟨by simp [hlen], by simp only [List.length_cons]; omega, ?_⟩
              intro i hi hfl hs
              cases i with
              | zero => exact hutf
              | succ i2 =>
                simp only [List.length_cons] at hi hfl hs
                exact hget i2 (by omega) (by omega) (by omega)
      · exact absurd h (by simp)

/-- C6 amended: the byte window of field `i` in every row split by
`decode_tbl` starts at the caller-supplied offset `row_index_col_start[i]`
(with the parsed format width as its span) — not at the cumulative sum of the
preceding parsed field widths, which the caller may or may not have passed. -/
theorem split_row_uses_supplied_offsets
    (raw : List Nat) (fs fl : List Nat) (strs : List (List Nat))
    (h : split_row raw fs fl = some (.ok strs)) :
    strs.length = fs.length ∧ fs.length ≤ fl.length ∧
      ∀ i, (hi : i < fs.length) → (hfl : i < fl.length) → (hs : i < strs.length) →
        from_utf8 (listSlice raw (fs.get ⟨i, hi⟩)
          (fs.get ⟨i, hi⟩ + fl.get ⟨i, hfl⟩)) = .ok (strs.get ⟨i, hs⟩) :=
  splitRowGo_spec raw fs fl strs h

/-- Witness for the amended C6: a two-byte row with the single field starting
at supplied offset 1, fully instantiated. -/
theorem split_row_uses_supplied_offsets_witness :
    from_utf8 (listSlice [65, 66] (([1] : List Nat).get ⟨0, by decide⟩)
        (([1] : List Nat).get ⟨0, by decide⟩ + ([1] : List Nat).get ⟨0, by decide⟩))
      = .ok (([[66]] : List (List Nat)).get ⟨0, by decide⟩) :=
  (split_row_uses_supplied_offsets [65, 66] [1] [1] [[66]] (by decide)).2.2 0
    (by decide) (by decide) (by decide)

/-- C7: `decode_tbl` gathers the per-row results of each parallel stage into
an ordered list and only then unpacks them sequentially through
`collectExcept`; when the row at index k fails and every earlier row
succeeded, the error surfaced is exactly row k's — later rows' errors are not
reported in the same pass. -/
theorem decode_first_error {e0 : Type} {a0 : Type} (rs : List (Except e0 a0))
    (k : Nat) (e : e0)
    (hk : rs.get? k = some (.error e))
    (hfirst : ∀ j, j < k → ∀ x, rs.get? j = some x → ∃ a, x = .ok a) :
    collectExcept rs = .error e := by
  induction rs generalizing k with
  | nil => simp at hk
  | cons r rest ih =>
    cases k with
    | zero =>
      simp only [List.get?] at hk
      cases Option.some.inj hk
      rfl
    | succ k2 =>
      obtain ⟨a, ha⟩ := hfirst 0 (Nat.succ_pos k2) r rfl
      subst ha
      simp only [List.get?] at hk
      have hrec := ih k2 hk (fun j hj x hx => hfirst (j + 1) (by omega) x hx)
      simp only [collectExcept, hrec]

/-- Witness for C7: rows 1 and 2 both fail; the gathered unpack surfaces the
error of row 1, the earliest failing index. -/
theorem decode_first_error_witness :
    collectExcept ([.ok 5, .error "a", .error "b"] : List (Except String Nat))
      = .error "a" :=
  decode_first_error ([.ok 5, .error "a", .error "b"] : List (Except String Nat)) 1 "a"
    rfl
    (by
      intro j hj x hx
      interval_cases j
      exact ⟨5, by cases hx; rfl⟩)

/-- The fold that computes `max_col_len` never drops below its seed. -/
theorem foldl_max_init_le (l : List AsciiColumn) (b : Nat) :
    b ≤ l.foldl (fun m c => max m c.entries.length) b := by
  induction l generalizing b with
  | nil => exact Nat.le_refl b
  | cons c rest ih =>
    simp only [List.foldl_cons]
    exact le_trans (Nat.le_max_left b c.entries.length) (ih (max b c.entries.length))

/-- Every column's length is bounded by the `max_col_len` fold. -/
theorem mem_le_foldl_max (l : List AsciiColumn) (b : Nat) (c : AsciiColumn)
    (hc : c ∈ l) :
    c.entries.length ≤ l.foldl (fun m c2 => max m c2.entries.length) b := by
  induction l generalizing b with
  | nil => exact absurd hc (List.not_mem_nil c)
  | cons a rest ih =>
    simp only [List.foldl_cons]
    rcases List.mem_cons.mp hc with rfl | hc2
    · exact le_trans (Nat.le_max_right b c.entries.length) (foldl_max_init_le rest _)
    · exact ih _ hc2

/-- C8: for every table, the padding pass at the start of `encode_tbl` brings
every destroyed column up to exactly the longest column's length by appending
empty text entries, leaving the original entries as the prefix; this pass is
the only computation the encode path performs before its `todo!()` panic, so
it completes before any per-column rendered-width computation could occur. -/
theorem encode_pads_columns (tbl : AsciiTable) :
    (∀ col ∈ tbl.destroy, col.length ≤ tbl.max_col_len)
    ∧ (∀ col ∈ padColumns tbl.destroy tbl.max_col_len, col.length = tbl.max_col_len)
    ∧ ∀ i, (h1 : i < tbl.destroy.length) →
        (h2 : i < (padColumns tbl.destroy tbl.max_col_len).length) →
        (padColumns tbl.destroy tbl.max_col_len).get ⟨i, h2⟩
          = tbl.destroy.get ⟨i, h1⟩
              ++ List.replicate (tbl.max_col_len - (tbl.destroy.get ⟨i, h1⟩).length) [] := by
  have hbound : ∀ col ∈ tbl.destroy, col.length ≤ tbl.max_col_len := by
    intro col hcol
    unfold AsciiTable.destroy at hcol
    obtain ⟨c, hc, rfl⟩ := List.mem_map.mp hcol
    rw [List.length_map]
    exact mem_le_foldl_max tbl.cols 0 c hc
  refine ⟨hbound, ?_, ?_⟩
  · intro col hcol
    obtain ⟨c, hc, rfl⟩ := List.mem_map.mp hcol
    rw [List.length_append, List.length_replicate]
    have := hbound c hc
    omega
  · intro i h1 h2
    simp only [padColumns, List.get_eq_getElem, List.getElem_map]

/-- Witness for C8: a two-column table with lengths 2 and 1; the short column
is padded up to length 2 while the long one is already there. -/
theorem encode_pads_columns_witness :
    ([[65], [66]] : List (List Nat)).length
        ≤ (⟨[⟨none, .char, [.Char [65], .Char [66]]⟩, ⟨none, .char, [.Char [67]]⟩],
            2⟩ : AsciiTable).max_col_len
    ∧ ([[67], []] : List (List Nat)).length
        = (⟨[⟨none, .char, [.Char [65], .Char [66]]⟩, ⟨none, .char, [.Char [67]]⟩],
            2⟩ : AsciiTable).max_col_len :=
  ⟨(encode_pads_columns
      ⟨[⟨none, .char, [.Char [65], .Char [66]]⟩, ⟨none, .char, [.Char [67]]⟩], 2⟩).1
      [[65], [66]] (by decide),
    (encode_pads_columns
      ⟨[⟨none, .char, [.Char [65], .Char [66]]⟩, ⟨none, .char, [.Char [67]]⟩], 2⟩).2.1
      [[67], []] (by decide)⟩

/-- C9: for every table and writer, `encode_tbl` reaches the `todo!()` panic
after the padding pass: it never finishes and never writes a byte — the
writer state at the panic is exactly the writer passed in. -/
theorem encode_tbl_always_panics (tbl : AsciiTable) (w : RawFitsWriter) :
    encode_tbl tbl w = .panicked w ∧ ∀ w2, encode_tbl tbl w ≠ .finished w2 := by
  refine ⟨rfl, ?_⟩
  intro w2 h
  simp [encode_tbl] at h

/-- C10: `decode_tbl` does not validate the caller-supplied start offsets
against the row width: with a width-1 field starting at offset 2880 in a
2880-character row, the row-slicing step indexes past the end of the row and
the Rust code panics (modelled `none`) instead of returning an error value. -/
theorem decode_tbl_oob_offset_panics :
    decode_tbl ⟨List.replicate 2880 65⟩ 2880 1 1 [2880] ["A1"] none = none := by
  have h1 : read_blocks ⟨List.replicate 2880 65⟩ ((2880 * 1 / BLOCK_SIZE +
      (if 2880 * 1 % BLOCK_SIZE ≠ 0 then 1 else 0)) * BLOCK_SIZE)
      = .ok (List.replicate 2880 65, ⟨[]⟩) := by
    have harg : (2880 * 1 / BLOCK_SIZE +
        (if 2880 * 1 % BLOCK_SIZE ≠ 0 then 1 else 0)) * BLOCK_SIZE = 2880 := by decide
    rw [harg]
    exact read_blocks_exact _ 2880 (by decide) (by rw [List.length_replicate])
  have h5 : collectPanic ((chunksExact 2880 (List.replicate 2880 65)).map
      (fun raw => split_row raw [2880] ([TableEntryFormat.Char 1].map get_field_width)))
      = none := by
    have hch : chunksExact 2880 (List.replicate 2880 65) = [List.replicate 2880 65] := by
      have h := chunksExact_replicate_mul 2880 65 (by decide) 1
      rw [one_mul] at h
      rw [h]
      rfl
    rw [hch]
    simp only [List.map_cons, List.map_nil, get_field_width]
    rw [split_row_one_oob (List.replicate 2880 65) 2880 1
      (by rw [List.length_replicate]; decide)]
    rfl
  exact decode_tbl_eval_panic ⟨List.replicate 2880 65⟩ 2880 1 1 [2880] ["A1"] none
    (List.replicate 2880 65) ⟨[]⟩ [.Char 1] ⟨[⟨none, .char, []⟩], 1⟩
    h1 (by decide) (by decide) (by decide) h5

/-- Witness for C9: a concrete table and writer; the encode panics with the
writer untouched. -/
theorem encode_tbl_always_panics_witness :
    encode_tbl ⟨[⟨none, .char, [.Char [65]]⟩], 1⟩ ⟨[]⟩ = .panicked ⟨[]⟩ :=
  (encode_tbl_always_panics ⟨[⟨none, .char, [.Char [65]]⟩], 1⟩ ⟨[]⟩).1

end RustronomyFits
